import Mathlib

/-!
Verification of the layr model/layer engine.

Embeds, as Lean definitions, the code of:
  - src/packages/model/src/model.js  (class Model)
  - src/unnamed/part_001             (class Layer)
Parts of the repository referenced but not available (field.js, field-mask.js,
the component base) are modelled from the specification and marked as such.
-/

namespace Layr

/-! ## JavaScript values

A `JSValue` models the JavaScript values the model engine handles: the
primitives, plain objects (own enumerable string-keyed entries, in insertion
order), and model instances.  A model instance is its list of fields; a field
carries a name, an `active` flag, its current value and its computed default
value. -/

mutual

inductive JSValue where
  | undefined : JSValue
  | null : JSValue
  | boolean : Bool → JSValue
  | number : Int → JSValue
  | str : String → JSValue
  | obj : List (String × JSValue) → JSValue
  | model : ModelData → JSValue

inductive ModelData where
  | mk : List FieldData → ModelData

inductive FieldData where
  | mk : String → Bool → JSValue → JSValue → FieldData

end

def FieldData.name : FieldData → String
  | .mk n _ _ _ => n

def FieldData.isActive : FieldData → Bool
  | .mk _ a _ _ => a

def FieldData.value : FieldData → JSValue
  | .mk _ _ v _ => v

def FieldData.defaultValue : FieldData → JSValue
  | .mk _ _ _ d => d

def ModelData.fields : ModelData → List FieldData
  | .mk fs => fs

/-- JavaScript `typeof` on the embedded values (`typeof null` is `'object'`). -/
def JSValue.typeOf : JSValue → String
  | .undefined => "undefined"
  | .null => "object"
  | .boolean _ => "boolean"
  | .number _ => "number"
  | .str _ => "string"
  | .obj _ => "object"
  | .model _ => "object"

/-- `isModel(object)` from model.js: true exactly for model instances
(`typeof object?.constructor?.$isModel === 'function'`). -/
def isModel : JSValue → Bool
  | .model _ => true
  | _ => false

/-- `hasOwnProperty(object, name)` on a plain object's entry list. -/
def hasOwnKey (entries : List (String × JSValue)) (name : String) : Bool :=
  entries.any fun kv => kv.1 == name

/-- `object[name]` on a plain object (JavaScript objects never carry a key
twice, so the first entry is the binding; an absent key reads `undefined`). -/
def getOwnKey (entries : List (String × JSValue)) (name : String) : JSValue :=
  (entries.lookup name).getD JSValue.undefined

/-! ## Field value operations

Modelled from the spec: field.js is not under src/.  Per section 4.3 of the
spec, creating a field value ("the field is created with that value") and
setting a field value both store the value and make the field *active*; the
create/set distinction (value coercion) lives in the missing field.js and is
kept here only as two distinct named operations. -/

/-- Modelled from the spec: `field.createValue(value)` stores the supplied
value and makes the field active. -/
def FieldData.createValue : FieldData → JSValue → FieldData
  | .mk n _ _ d, v => .mk n true v d

/-- Modelled from the spec: `field.setValue(value)` stores the supplied value
and makes the field active. -/
def FieldData.setValue : FieldData → JSValue → FieldData
  | .mk n _ _ d, v => .mk n true v d

/-! ## Model construction (model.js, constructor, lines 13-30) -/

/-- The field-filling loop of the `Model` constructor: for every declared
field, if the input object carries an own key of the field's name, the field
is created with that value, otherwise it is set to its computed default. -/
def fillFields : List FieldData → List (String × JSValue) → List FieldData
  | [], _ => []
  | f :: rest, object =>
    (if hasOwnKey object f.name then f.createValue (getOwnKey object f.name)
     else f.setValue f.defaultValue) :: fillFields rest object

/-- `new Model(object, {isDeserializing})`: when `isDeserializing` is set the
constructor returns before any field filling; otherwise it runs `fillFields`
over the declared fields. -/
def modelConstruct (fields : List FieldData) (object : List (String × JSValue))
    (isDeserializing : Bool) : List FieldData :=
  if isDeserializing then fields
  else fillFields fields object

/-! ## $assign (model.js, lines 32-64) -/

inductive JSError where
  | typeMismatch (received : String)
  | typeError (msg : String)
  | typeRedeclaration (name : String)
  | notAField (name : String)
  deriving DecidableEq

/-- `this.$hasField(name)`: the model declares a field of that name. -/
def hasField (fields : List FieldData) (name : String) : Bool :=
  fields.any fun f => f.name == name

/-- `this.$getField(name).createValue(value)` rendered functionally: the
(unique) field named `name` is replaced by its created value. -/
def updateFieldCreate (fields : List FieldData) (name : String) (v : JSValue) :
    List FieldData :=
  fields.map fun f => if f.name == name then f.createValue v else f

/-- `this.$getField(name).setValue(value)` rendered functionally. -/
def updateFieldSet (fields : List FieldData) (name : String) (v : JSValue) :
    List FieldData :=
  fields.map fun f => if f.name == name then f.setValue v else f

/-- `Object.entries(object)`: throws a TypeError on `null` (and `undefined`);
plain objects yield their own enumerable entries; other primitives yield no
entries. -/
def objectEntries : JSValue → Except JSError (List (String × JSValue))
  | .null => .error (.typeError "Cannot convert undefined or null to object")
  | .undefined => .error (.typeError "Cannot convert undefined or null to object")
  | .obj entries => .ok entries
  | _ => .ok []

/-- `__assignObject`: for every `[name, value]` of `Object.entries(object)`,
if the model has a field of that name, create its value. -/
def assignObjectGo : List FieldData → List (String × JSValue) → List FieldData
  | fields, [] => fields
  | fields, (name, v) :: rest =>
    assignObjectGo (if hasField fields name then updateFieldCreate fields name v else fields)
      rest

/-- `__assignOther`: for every *active* field of the other model, if this
model has a field of the same name, set its value (value-set, not
value-create). -/
def assignOtherGo : List FieldData → List FieldData → List FieldData
  | fields, [] => fields
  | fields, o :: rest =>
    assignOtherGo
      (if o.isActive && hasField fields o.name then updateFieldSet fields o.name o.value
       else fields)
      rest

/-- `$assign(object)` (model.js, lines 32-44): `undefined` is a no-op; a model
goes through `__assignOther`; a value of `typeof 'object'` goes through
`__assignObject` (where `Object.entries` rejects `null`); anything else throws
the type-mismatch error. -/
def modelAssign (fields : List FieldData) (object : JSValue) :
    Except JSError (List FieldData) :=
  match object with
  | .undefined => .ok fields
  | .model (.mk otherFields) => .ok (assignOtherGo fields otherFields)
  | other =>
    if other.typeOf == "object" then
      match objectEntries other with
      | .ok entries => .ok (assignObjectGo fields entries)
      | .error e => .error e
    else
      .error (.typeMismatch other.typeOf)

/-! ## Simp lemmas for field operations -/

@[simp] lemma createValue_name (f : FieldData) (v : JSValue) :
    (f.createValue v).name = f.name := by
  cases f; rfl

@[simp] lemma createValue_isActive (f : FieldData) (v : JSValue) :
    (f.createValue v).isActive = true := by
  cases f; rfl

@[simp] lemma setValue_name (f : FieldData) (v : JSValue) :
    (f.setValue v).name = f.name := by
  cases f; rfl

@[simp] lemma setValue_isActive (f : FieldData) (v : JSValue) :
    (f.setValue v).isActive = true := by
  cases f; rfl

lemma lookup_eq_none_of_not_mem_keys {β : Type} {k : String}
    {l : List (String × β)} (h : k ∉ l.map Prod.fst) : l.lookup k = none := by
  induction l with
  | nil => rfl
  | cons a rest ih =>
    simp only [List.map_cons, List.mem_cons, not_or] at h
    have hne : (k == a.1) = false := beq_eq_false_iff_ne.mpr h.1
    cases a
    simp only [List.lookup] at *
    rw [hne]
    exact ih h.2

lemma assignObjectGo_lookup (fields : List FieldData)
    (entries : List (String × JSValue)) (h : (entries.map Prod.fst).Nodup) :
    assignObjectGo fields entries =
      fields.map fun f =>
        match entries.lookup f.name with
        | some v => f.createValue v
        | none => f := by
  induction entries generalizing fields with
  | nil => simp [assignObjectGo]
  | cons kv rest ih =>
    obtain ⟨k, v⟩ := kv
    simp only [List.map_cons, List.nodup_cons] at h
    obtain ⟨hk, hrest⟩ := h
    rw [assignObjectGo]
    by_cases hf : hasField fields k
    · rw [if_pos hf, ih _ hrest]
      unfold updateFieldCreate
      rw [List.map_map]
      apply List.map_congr_left
      intro f _
      simp only [Function.comp_apply]
      by_cases hname : f.name = k
      · have hb : (f.name == k) = true := beq_iff_eq.mpr hname
        rw [if_pos hb]
        have hlk : rest.lookup (f.createValue v).name = none := by
          rw [createValue_name, hname]
          exact lookup_eq_none_of_not_mem_keys hk
        rw [hlk]
        have : ((k : String) == k) = true := beq_self_eq_true k
        simp [List.lookup, hname, this]
      · have hb : (f.name == k) = false := beq_eq_false_iff_ne.mpr hname
        rw [if_neg (by simp [hb])]
        have : (f.name == k) = false := hb
        simp [List.lookup, this]
    · rw [if_neg hf, ih _ hrest]
      apply List.map_congr_left
      intro f hfmem
      have hname : (f.name == k) = false := by
        by_contra hcon
        have : (f.name == k) = true := by
          cases hfk : (f.name == k) with
          | true => rfl
          | false => exact absurd hfk hcon
        exact hf (List.any_eq_true.mpr ⟨f, hfmem, this⟩)
      simp [List.lookup, hname]

/-- C5: constructing a new, non-hydrating model instance makes every declared
field active; a field whose name the input object carries as an own key is
created with that value, any other field is set to its computed default; with
`isDeserializing` no field-filling runs at all. -/
theorem c5_construct_fills_every_field (fields : List FieldData)
    (object : List (String × JSValue)) :
    (∀ f' ∈ modelConstruct fields object false, f'.isActive = true) ∧
    List.Forall₂ (fun f f' =>
        f'.name = f.name ∧ f'.isActive = true ∧
        f' = (if hasOwnKey object f.name then f.createValue (getOwnKey object f.name)
              else f.setValue f.defaultValue))
      fields (modelConstruct fields object false) ∧
    modelConstruct fields object true = fields := by
  refine ⟨?_, ?_, rfl⟩
  · intro f' hf'
    simp only [modelConstruct, if_neg (by simp : ¬(false = true))] at hf'
    induction fields with
    | nil => simp [fillFields] at hf'
    | cons f rest ih =>
      rw [fillFields] at hf'
      rcases List.mem_cons.mp hf' with heq | hmem
      · subst heq
        by_cases hk : hasOwnKey object f.name
        · simp [hk]
        · simp [hk]
      · exact ih hmem
  · simp only [modelConstruct, if_neg (by simp : ¬(false = true))]
    induction fields with
    | nil => exact List.Forall₂.nil
    | cons f rest ih =>
      rw [fillFields]
      refine List.Forall₂.cons ?_ ih
      by_cases hk : hasOwnKey object f.name
      · simp [hk]
      · simp [hk]

/-- C6: `$assign` on a plain keyed mapping copies exactly the keys matching
declared field names into the corresponding fields via value-create and leaves
every other field untouched (unrelated keys are ignored); `$assign(42)` throws
the type-mismatch error naming the received type `'number'`. -/
theorem c6_assign_object_and_number (fields : List FieldData)
    (entries : List (String × JSValue)) (h : (entries.map Prod.fst).Nodup) :
    modelAssign fields (.obj entries) =
      .ok (fields.map fun f =>
        match entries.lookup f.name with
        | some v => f.createValue v
        | none => f) ∧
    modelAssign fields (.number 42) = .error (.typeMismatch "number") := by
  constructor
  · show Except.ok (assignObjectGo fields entries) = _
    rw [assignObjectGo_lookup fields entries h]
  · rfl

/-- Witness for C6 at a concrete model and input. -/
theorem c6_assign_object_and_number_witness :
    (([("title", JSValue.str "Inception"), ("year", JSValue.number 2010)].map
        Prod.fst).Nodup) ∧
    (modelAssign [FieldData.mk "title" false .undefined (.str "")]
        (.obj [("title", JSValue.str "Inception"), ("year", JSValue.number 2010)]) =
      .ok [FieldData.mk "title" true (.str "Inception") (.str "")] ∧
    modelAssign [FieldData.mk "title" false .undefined (.str "")] (.number 42) =
      .error (.typeMismatch "number")) := by
  refine ⟨by simp, ?_⟩
  have h :=
    c6_assign_object_and_number [FieldData.mk "title" false .undefined (.str "")]
      [("title", JSValue.str "Inception"), ("year", JSValue.number 2010)] (by simp)
  exact ⟨by rw [h.1]; rfl, h.2⟩

/-- C9: `$assign` throws its type-mismatch error exactly for inputs that are
not `undefined`, not a model, and not of `typeof 'object'`; `$assign(undefined)`
is a no-op returning with every field unchanged; `$assign(null)` takes the
object branch and fails with `Object.entries`'s TypeError, not the
type-mismatch error. -/
theorem c9_assign_error_domain (fields : List FieldData) (v : JSValue) :
    ((∃ s, modelAssign fields v = .error (.typeMismatch s)) ↔
      (¬v = .undefined ∧ isModel v = false ∧ ¬v.typeOf = "object")) ∧
    modelAssign fields .undefined = .ok fields ∧
    modelAssign fields .null =
      .error (.typeError "Cannot convert undefined or null to object") := by
  refine ⟨?_, rfl, rfl⟩
  cases v with
  | undefined => simp [modelAssign]
  | null => simp [modelAssign, objectEntries, isModel, JSValue.typeOf]
  | boolean b => simp [modelAssign, isModel, JSValue.typeOf]
  | number n => simp [modelAssign, isModel, JSValue.typeOf]
  | str s => simp [modelAssign, isModel, JSValue.typeOf]
  | obj entries => simp [modelAssign, objectEntries, isModel, JSValue.typeOf]
  | model m =>
    cases m
    simp [modelAssign, isModel, JSValue.typeOf]

/-! ## Property table with copy-on-write delegation
    (model.js, `$getProperty`/`$setProperty`/`$setField`, lines 153-271)

A model entity's property table is delegation-based: reads fall through from
the entity's own entries to the nearest ancestor's (`__getProperties` builds
the own layer over the inherited one with `Object.create`).  The ancestor
chain is flattened here into a single first-match list, which preserves the
read/write semantics seen from this entity.  An entity's JS object identity is
modelled by a numeric `id`, recorded in each property descriptor as its
`owner` (the entity the property was created on or forked to). -/

/-- Field/property options.  `type` is the declared type (`options.type` in
model.js); the remaining options are kept as an opaque keyed list. -/
structure FieldOptions where
  type : Option String
  rest : List (String × String)
  deriving DecidableEq

/-- JavaScript spread merge `{...existing, ...options}`: keys of `options`
win, absent keys keep the existing binding. -/
def mergeOptions (existing opts : FieldOptions) : FieldOptions :=
  { type := match opts.type with
      | some t => some t
      | none => existing.type,
    rest := existing.rest.filter (fun kv => (opts.rest.lookup kv.1).isNone) ++ opts.rest }

/-- A property descriptor: the owning entity, whether it is a field (as
opposed to a method), the declared type, and the construction options. -/
structure PropDesc where
  owner : Nat
  isFieldKind : Bool
  declaredType : String
  options : FieldOptions
  deriving DecidableEq

/-- `property.fork(this)`: the descriptor is copied and bound to the
requesting entity; its content is unchanged. -/
def PropDesc.forkTo (d : PropDesc) (ownerId : Nat) : PropDesc :=
  { d with owner := ownerId }

/-- The content of a descriptor, ignoring which entity owns it. -/
def PropDesc.view (d : PropDesc) : Bool × String × FieldOptions :=
  (d.isFieldKind, d.declaredType, d.options)

/-- An entity with a delegation-based property table: `own` entries shadow
`inherited` ones. -/
structure Entity where
  id : Nat
  own : List (String × PropDesc)
  inherited : List (String × PropDesc)

/-- Chain read `properties[name]`: own entry first, else the nearest
ancestor's. -/
def Entity.lookupProp (e : Entity) (name : String) : Option PropDesc :=
  match e.own.lookup name with
  | some d => some d
  | none => e.inherited.lookup name

/-- `$getProperty(name)` (model.js, lines 153-173): a chain miss returns an
absent marker; a hit that is not an own entry is forked, bound to this entity
and stored in the own table before being returned. -/
def Entity.getPropertyM (e : Entity) (name : String) : Option PropDesc × Entity :=
  match e.own.lookup name with
  | some d => (some d, e)
  | none =>
    match e.inherited.lookup name with
    | none => (none, e)
    | some d =>
      let d' := d.forkTo e.id
      (some d', { e with own := (name, d') :: e.own })

/-- Modelled from the spec: field.js is not under src/; a Field built by
`new $Field(this, name, options)` records its declared type from
`options.type`. -/
def mkPropDesc (ownerId : Nat) (isFieldK : Bool) (opts : FieldOptions) : PropDesc :=
  { owner := ownerId, isFieldKind := isFieldK, declaredType := opts.type.getD "",
    options := opts }

/-- `$setProperty(constructor, name, options)` (model.js, lines 175-186):
merge the options over an existing property's options, construct the new
descriptor and store it as an own entry. -/
def Entity.setPropertyM (e : Entity) (name : String) (isFieldK : Bool)
    (opts : FieldOptions) : PropDesc × Entity :=
  let (p, e1) := e.getPropertyM name
  let merged := match p with
    | some d => mergeOptions d.options opts
    | none => opts
  let d := mkPropDesc e1.id isFieldK merged
  (d, { e1 with own := (name, d) :: e1.own })

/-- `$setField(name, options)` (model.js, lines 260-271): when a property of
that name exists it must be a field, and supplying a type different from the
existing field's declared type throws; otherwise the field descriptor is
(re)registered through `$setProperty`. -/
def Entity.setFieldM (e : Entity) (name : String) (opts : FieldOptions) :
    Except JSError PropDesc × Entity :=
  let (p, e1) := e.getPropertyM name
  match p with
  | some existing =>
    if existing.isFieldKind = false then (.error (.notAField name), e1)
    else
      match opts.type with
      | some t =>
        if t ≠ existing.declaredType then (.error (.typeRedeclaration name), e1)
        else
          let (d, e2) := e1.setPropertyM name true opts
          (.ok d, e2)
      | none =>
        let (d, e2) := e1.setPropertyM name true opts
        (.ok d, e2)
  | none =>
    let (d, e2) := e1.setPropertyM name true opts
    (.ok d, e2)

@[simp] lemma forkTo_view (d : PropDesc) (i : Nat) : (d.forkTo i).view = d.view := rfl

@[simp] lemma forkTo_isFieldKind (d : PropDesc) (i : Nat) :
    (d.forkTo i).isFieldKind = d.isFieldKind := rfl

@[simp] lemma forkTo_declaredType (d : PropDesc) (i : Nat) :
    (d.forkTo i).declaredType = d.declaredType := rfl

/-- C7: `$setField` on an already-declared field with a declared type
different from the field's existing type throws the type-redeclaration error,
and every property descriptor observable through the entity (its kind, its
declared type and its options, at every name) is unchanged by the failed
call. -/
theorem c7_setField_type_redeclaration (e : Entity) (name : String)
    (opts : FieldOptions) (d : PropDesc) (t' : String)
    (hd : e.lookupProp name = some d)
    (hf : d.isFieldKind = true)
    (ht : opts.type = some t')
    (hne : t' ≠ d.declaredType) :
    (e.setFieldM name opts).1 = .error (.typeRedeclaration name) ∧
    ∀ m, (((e.setFieldM name opts).2.lookupProp m).map PropDesc.view) =
      ((e.lookupProp m).map PropDesc.view) := by
  unfold Entity.setFieldM
  cases hown : e.own.lookup name with
  | some d0 =>
    have hd0 : d0 = d := by
      rw [Entity.lookupProp, hown] at hd
      exact Option.some_injective _ hd
    subst hd0
    simp only [Entity.getPropertyM, hown, ht, hf]
    rw [if_neg (by simp), if_pos hne]
    exact ⟨rfl, fun m => rfl⟩
  | none =>
    have hinh : e.inherited.lookup name = some d := by
      rw [Entity.lookupProp, hown] at hd
      exact hd
    simp only [Entity.getPropertyM, hown, hinh, ht]
    rw [if_neg (by simp [PropDesc.forkTo, hf]),
      if_pos (by simpa [PropDesc.forkTo] using hne)]
    refine ⟨rfl, fun m => ?_⟩
    simp only [Entity.lookupProp]
    by_cases hm : name = m
    · subst hm
      simp [List.lookup, hown, hinh]
    · have : (m == name) = false := beq_eq_false_iff_ne.mpr (Ne.symm hm)
      simp [List.lookup, this]

/-- Witness for C7: a field `title : string` redeclared as `number`. -/
theorem c7_setField_type_redeclaration_witness :
    (Entity.mk 1 []
        [("title", PropDesc.mk 0 true "string" (FieldOptions.mk (some "string") []))]
      |>.lookupProp "title") =
        some (PropDesc.mk 0 true "string" (FieldOptions.mk (some "string") [])) ∧
    (PropDesc.mk 0 true "string" (FieldOptions.mk (some "string") [])).isFieldKind = true ∧
    (FieldOptions.mk (some "number") []).type = some "number" ∧
    "number" ≠ (PropDesc.mk 0 true "string" (FieldOptions.mk (some "string") [])).declaredType ∧
    ((Entity.mk 1 []
        [("title", PropDesc.mk 0 true "string" (FieldOptions.mk (some "string") []))]
      |>.setFieldM "title" (FieldOptions.mk (some "number") [])).1 =
        .error (.typeRedeclaration "title") ∧
    ∀ m, (((Entity.mk 1 []
        [("title", PropDesc.mk 0 true "string" (FieldOptions.mk (some "string") []))]
      |>.setFieldM "title" (FieldOptions.mk (some "number") [])).2.lookupProp m).map
        PropDesc.view) =
      ((Entity.mk 1 []
        [("title", PropDesc.mk 0 true "string" (FieldOptions.mk (some "string") []))]
        |>.lookupProp m).map PropDesc.view)) := by
  refine ⟨rfl, rfl, rfl, by decide, ?_⟩
  exact c7_setField_type_redeclaration
    (Entity.mk 1 []
      [("title", PropDesc.mk 0 true "string" (FieldOptions.mk (some "string") []))])
    "title" (FieldOptions.mk (some "number") [])
    (PropDesc.mk 0 true "string" (FieldOptions.mk (some "string") []))
    "number" rfl rfl rfl (by decide)

/-! ## Layer (registry) — src/unnamed/part_001

A `Layer` holds a component map that delegates to its parent's
(`fork()` is `Object.create(this)` plus
`forkedLayer._components = Object.create(this._components)`), an optional
cached ghost, the names for which a component getter has been defined, and
whether `_name` has been written.  JS object identity is modelled by a numeric
`objId` chosen freshly at construction/fork time.  Components come from the
component base that is not under src/; `Modelled from the spec:` a component
class carries a name, an optional back-reference to its owning registry
(`hasLayer`/`setLayer`), and `fork()` yields a new object with the same
content. -/

structure Comp where
  id : Nat
  name : String
  layerId : Option Nat
  isClassC : Bool
  deriving DecidableEq

/-- Modelled from the spec: `Component.fork()` produces a new entity (fresh
identity) sharing the source's content. -/
def Comp.forkC (c : Comp) (freshId : Nat) : Comp :=
  { c with id := freshId }

/-- Modelled from the spec: `Component.setLayer(layer)` records the registry
back-reference. -/
def Comp.setLayerC (c : Comp) (layerRef : Nat) : Comp :=
  { c with layerId := some layerRef }

inductive Layer where
  | mk (objId : Nat) (ownComponents : List (String × Comp)) (ownGhost : Option Layer)
      (ownGetters : List String) (ownNameSet : Bool) (parent : Option Layer)

def Layer.objId : Layer → Nat
  | .mk i _ _ _ _ _ => i

def Layer.ownComponents : Layer → List (String × Comp)
  | .mk _ cs _ _ _ _ => cs

def Layer.ownGhost : Layer → Option Layer
  | .mk _ _ g _ _ _ => g

def Layer.ownGetters : Layer → List String
  | .mk _ _ _ gs _ _ => gs

def Layer.ownNameSet : Layer → Bool
  | .mk _ _ _ _ ns _ => ns

def Layer.parent : Layer → Option Layer
  | .mk _ _ _ _ _ p => p

/-- `this._components[className]`: the component map read walks the
delegation chain (own entries first, then the parent's map, recursively). -/
def Layer.lookupComp : Layer → String → Option Comp
  | .mk _ own _ _ _ none, name => own.lookup name
  | .mk _ own _ _ _ (some p), name =>
    match own.lookup name with
    | some c => some c
    | none => p.lookupComp name

/-- `fork()` (part_001, lines 188-194): `Object.create(this)` with a fresh
component map delegating to the source's — no own component entries, no own
ghost, no own getters, no own `_name`. -/
def Layer.forkL (l : Layer) (freshId : Nat) : Layer :=
  .mk freshId [] none [] false (some l)

/-- `this._components[className] = Component`: store an own entry. -/
def Layer.storeComponent (l : Layer) (name : String) (c : Comp) : Layer :=
  match l with
  | .mk i own g gs ns p => .mk i ((name, c) :: own) g gs ns p

/-- `Object.defineProperty(this, componentName, {get() {...}})`: record an
own getter. -/
def Layer.addGetter (l : Layer) (s : String) : Layer :=
  match l with
  | .mk i own g gs ns p => .mk i own g (s :: gs) ns p

/-- `getComponent(name)` (part_001, lines 51-93), for a class name: a chain
miss returns the absent marker; a hit that is not an own map entry means the
layer has been forked, so the component is forked, bound to this layer
(`setLayer`) and stored in the own map before being returned. -/
def Layer.getComponentL (l : Layer) (name : String) (freshId : Nat) :
    Option Comp × Layer :=
  match l.lookupComp name with
  | none => (none, l)
  | some c =>
    if (l.ownComponents.lookup name).isSome then (some c, l)
    else
      let c' := (c.forkC freshId).setLayerC l.objId
      (some c', l.storeComponent name c')

/-- `this._ghost` read through the delegation chain. -/
def Layer.lookupGhost : Layer → Option Layer
  | .mk _ _ (some g) _ _ _ => some g
  | .mk _ _ none _ _ none => none
  | .mk _ _ none _ _ (some p) => p.lookupGhost

/-- `this._ghost = ...`: own write. -/
def Layer.setOwnGhost (l : Layer) (g : Layer) : Layer :=
  match l with
  | .mk i own _ gs ns p => .mk i own (some g) gs ns p

/-- `getGhost()` (part_001, lines 204-210): if no `_ghost` is readable
through the chain, create a self-fork and cache it as an own entry. -/
def Layer.getGhostL (l : Layer) (freshId : Nat) : Layer × Layer :=
  match l.lookupGhost with
  | some g => (g, l)
  | none =>
    let g := l.forkL freshId
    (g, l.setOwnGhost g)

/-- The properties every `Layer` object answers `in` for through its class
prototype (the methods and accessors of the `Layer` class) and
`Object.prototype`. -/
def layerProtoProps : List String :=
  ["constructor", "getName", "setName", "unsetName", "getComponent",
   "registerComponent", "getComponents", "fork", "isForkOf", "getGhost",
   "ghost", "describe", "hasOwnProperty", "isPrototypeOf",
   "propertyIsEnumerable", "toLocaleString", "toString", "valueOf",
   "__defineGetter__", "__defineSetter__", "__lookupGetter__",
   "__lookupSetter__", "__proto__"]

/-- The own data/accessor properties of one layer object: defined component
getters, `_components` (set by the constructor and by every fork), `_name`
when it has been written, `_ghost` when it has been cached. -/
def Layer.hasOwnNamedProp : Layer → String → Bool
  | .mk _ _ g gs ns _, s =>
    gs.contains s || s == "_components" || (ns && s == "_name") ||
      (g.isSome && s == "_ghost")

/-- `componentName in this`: true for a class-prototype/Object-prototype
property or an own property of any layer on the delegation chain. -/
def Layer.nameInL : Layer → String → Bool
  | l@(.mk _ _ _ _ _ none), s =>
    layerProtoProps.contains s || l.hasOwnNamedProp s
  | l@(.mk _ _ _ _ _ (some p)), s =>
    layerProtoProps.contains s || l.hasOwnNamedProp s || p.nameInL s

@[simp] lemma Layer.lookupComp_cons_self (i : Nat) (own : List (String × Comp))
    (g : Option Layer) (gs : List String) (ns : Bool) (p : Option Layer)
    (name : String) (c : Comp) :
    (Layer.mk i ((name, c) :: own) g gs ns p).lookupComp name = some c := by
  cases p <;> simp [Layer.lookupComp, List.lookup]

inductive RegError where
  | expectedClassGotInstance
  | alreadyRegistered
  | duplicateName
  | propertyCollision
  deriving DecidableEq

/-- `registerComponent(Component)` (part_001, lines 95-153): reject a
component instance, a component already owned by a registry, a name already
bound in the (delegation-chain) component map, and a name colliding with an
existing registry-level property; on success set the component's registry
back-reference, store it in the own map and define the name's getter. -/
def Layer.registerComponentL (l : Layer) (c : Comp) : Option RegError × Layer :=
  if c.isClassC = false then (some .expectedClassGotInstance, l)
  else if c.layerId.isSome then (some .alreadyRegistered, l)
  else
    match l.lookupComp c.name with
    | some _ => (some .duplicateName, l)
    | none =>
      if l.nameInL c.name then (some .propertyCollision, l)
      else
        let c' := c.setLayerC l.objId
        (none, (l.storeComponent c.name c').addGetter c.name)

/-- C4: forking never mutates the origin.  (1) A fork's component map has no
own entries.  (2) `getComponent` on a fresh fork F of L forks the found
component, binds it to F (`setLayer`), and stores it only in F's own map: the
resulting layer is exactly F's id, the single own entry, and the untouched
parent L.  (3) `$getProperty` on an entity that does not directly own the
property materializes a fork bound to the entity in its own table, leaving
the inherited table unchanged. -/
theorem c4_fork_never_mutates_origin :
    (∀ (l : Layer) (fid : Nat), (l.forkL fid).ownComponents = []) ∧
    (∀ (l : Layer) (fid cid : Nat) (name : String) (c : Comp),
      l.lookupComp name = some c →
      (l.forkL fid).getComponentL name cid =
        (some ((c.forkC cid).setLayerC fid),
         Layer.mk fid [(name, (c.forkC cid).setLayerC fid)] none [] false (some l)) ∧
      ((c.forkC cid).setLayerC fid).layerId = some fid) ∧
    (∀ (e : Entity) (name : String) (d : PropDesc),
      e.own.lookup name = none → e.inherited.lookup name = some d →
      e.getPropertyM name =
        (some (d.forkTo e.id), { e with own := (name, d.forkTo e.id) :: e.own }) ∧
      (e.getPropertyM name).2.inherited = e.inherited ∧ (d.forkTo e.id).owner = e.id) := by
  refine ⟨fun l fid => rfl, fun l fid cid name c h => ?_, fun e name d hown hinh => ?_⟩
  · constructor
    · show Layer.getComponentL (.mk fid [] none [] false (some l)) name cid = _
      rw [Layer.getComponentL, Layer.lookupComp]
      simp only [List.lookup, h]
      rfl
    · rfl
  · refine ⟨?_, ?_, rfl⟩
    · simp [Entity.getPropertyM, hown, hinh]
    · simp [Entity.getPropertyM, hown, hinh]

/-- Witness for C4 at a one-component layer and a one-property entity. -/
theorem c4_fork_never_mutates_origin_witness :
    (Layer.mk 0 [("Movie", Comp.mk 10 "Movie" (some 0) true)] none ["Movie"] false
        none).lookupComp "Movie" = some (Comp.mk 10 "Movie" (some 0) true) ∧
    ((Layer.mk 0 [("Movie", Comp.mk 10 "Movie" (some 0) true)] none ["Movie"] false
        none).forkL 1).getComponentL "Movie" 11 =
      (some (Comp.mk 11 "Movie" (some 1) true),
       Layer.mk 1 [("Movie", Comp.mk 11 "Movie" (some 1) true)] none [] false
         (some (Layer.mk 0 [("Movie", Comp.mk 10 "Movie" (some 0) true)] none
           ["Movie"] false none))) ∧
    (Entity.mk 3 [] [("title", PropDesc.mk 0 true "string"
        (FieldOptions.mk (some "string") []))]).getPropertyM "title" =
      (some (PropDesc.mk 3 true "string" (FieldOptions.mk (some "string") [])),
       Entity.mk 3 [("title", PropDesc.mk 3 true "string"
         (FieldOptions.mk (some "string") []))]
         [("title", PropDesc.mk 0 true "string" (FieldOptions.mk (some "string") []))]) := by
  refine ⟨rfl, ?_, ?_⟩
  · exact (c4_fork_never_mutates_origin.2.1
      (Layer.mk 0 [("Movie", Comp.mk 10 "Movie" (some 0) true)] none ["Movie"] false
        none) 1 11 "Movie" (Comp.mk 10 "Movie" (some 0) true) rfl).1
  · exact (c4_fork_never_mutates_origin.2.2
      (Entity.mk 3 [] [("title", PropDesc.mk 0 true "string"
        (FieldOptions.mk (some "string") []))]) "title"
      (PropDesc.mk 0 true "string" (FieldOptions.mk (some "string") [])) rfl rfl).1

/-- C8: `registerComponent` fails exactly when the argument is a component
instance, already belongs to a registry, has the name of an already reachable
component, or has the name of an existing registry-level property; every
failure leaves the layer unchanged; success records the registry
back-reference on the stored component and makes it reachable under its name
through `getComponent` (without forking, since the entry is own). -/
theorem c8_registerComponent_spec (l : Layer) (c : Comp) :
    ((l.registerComponentL c).1.isSome = true ↔
      (c.isClassC = false ∨ c.layerId.isSome = true ∨
        (l.lookupComp c.name).isSome = true ∨ l.nameInL c.name = true)) ∧
    (∀ e, (l.registerComponentL c).1 = some e → (l.registerComponentL c).2 = l) ∧
    ((l.registerComponentL c).1 = none →
      ((l.registerComponentL c).2.lookupComp c.name = some (c.setLayerC l.objId) ∧
       (c.setLayerC l.objId).layerId = some l.objId ∧
       ∀ fid, (l.registerComponentL c).2.getComponentL c.name fid =
         (some (c.setLayerC l.objId), (l.registerComponentL c).2))) := by
  by_cases h1 : c.isClassC = false
  · refine ⟨by simp [Layer.registerComponentL, h1], ?_, ?_⟩
    · intro e _
      simp [Layer.registerComponentL, h1]
    · intro hnone
      simp [Layer.registerComponentL, h1] at hnone
  · by_cases h2 : c.layerId.isSome = true
    · refine ⟨by simp [Layer.registerComponentL, h1, h2], ?_, ?_⟩
      · intro e _
        simp [Layer.registerComponentL, h1, h2]
      · intro hnone
        simp [Layer.registerComponentL, h1, h2] at hnone
    · cases h3 : l.lookupComp c.name with
      | some c0 =>
        refine ⟨by simp [Layer.registerComponentL, h1, h2, h3], ?_, ?_⟩
        · intro e _
          simp [Layer.registerComponentL, h1, h2, h3]
        · intro hnone
          simp [Layer.registerComponentL, h1, h2, h3] at hnone
      | none =>
        by_cases h4 : l.nameInL c.name = true
        · refine ⟨by simp [Layer.registerComponentL, h1, h2, h3, h4], ?_, ?_⟩
          · intro e _
            simp [Layer.registerComponentL, h1, h2, h3, h4]
          · intro hnone
            simp [Layer.registerComponentL, h1, h2, h3, h4] at hnone
        · have hreg : l.registerComponentL c =
            (none, (l.storeComponent c.name (c.setLayerC l.objId)).addGetter c.name) := by
            simp [Layer.registerComponentL, h1, h2, h3, h4]
          refine ⟨by simp [hreg, h1, h2, h3, h4], ?_, ?_⟩
          · intro e he
            rw [hreg] at he
            exact absurd he (by simp)
          · intro _
            rw [hreg]
            cases l with
            | mk i own g gs ns p =>
              refine ⟨?_, rfl, fun fid => ?_⟩
              · simp [Layer.storeComponent, Layer.addGetter]
              · rw [Layer.getComponentL]
                simp [Layer.storeComponent, Layer.addGetter,
                  Layer.ownComponents, List.lookup]

/-- Witness for C8: a successful registration and a duplicate-name failure on
the resulting layer. -/
theorem c8_registerComponent_spec_witness :
    ((Layer.mk 0 [] none [] false none).registerComponentL
        (Comp.mk 10 "Movie" none true)).1 = none ∧
    ((Layer.mk 0 [] none [] false none).registerComponentL
        (Comp.mk 10 "Movie" none true)).2.lookupComp "Movie" =
      some (Comp.mk 10 "Movie" (some 0) true) ∧
    (((Layer.mk 0 [] none [] false none).registerComponentL
        (Comp.mk 10 "Movie" none true)).2.registerComponentL
        (Comp.mk 11 "Movie" none true)).1.isSome = true := by
  refine ⟨rfl, ?_, ?_⟩
  · exact (((c8_registerComponent_spec (Layer.mk 0 [] none [] false none)
      (Comp.mk 10 "Movie" none true)).2.2) rfl).1
  · exact (c8_registerComponent_spec _ (Comp.mk 11 "Movie" none true)).1.mpr
      (Or.inr (Or.inr (Or.inl (by rfl))))

/-- C10: `getGhost()` is idempotent — after a first call, every later call on
the resulting layer returns the same cached ghost and changes nothing
(whatever fresh identity a new fork would have received) — and the cache is
shared down forks: a fork of a layer whose ghost is readable through the
chain returns that same ghost without creating a fresh self-fork and without
materializing anything on the fork. -/
theorem c10_getGhost_idempotent_and_shared :
    (∀ (l : Layer) (f1 f2 : Nat),
      (l.getGhostL f1).2.getGhostL f2 = ((l.getGhostL f1).1, (l.getGhostL f1).2)) ∧
    (∀ (l g : Layer) (fid f2 : Nat),
      l.lookupGhost = some g →
      (l.forkL fid).getGhostL f2 = (g, l.forkL fid)) := by
  constructor
  · intro l f1 f2
    cases hg : l.lookupGhost with
    | some g =>
      simp [Layer.getGhostL, hg]
    | none =>
      have h1 : l.getGhostL f1 = (l.forkL f1, l.setOwnGhost (l.forkL f1)) := by
        simp [Layer.getGhostL, hg]
      have h2 : (l.setOwnGhost (l.forkL f1)).lookupGhost = some (l.forkL f1) := by
        cases l with
        | mk i own g gs ns p => rfl
      rw [h1, Layer.getGhostL, h2]
  · intro l g fid f2 hg
    have h1 : (l.forkL fid).lookupGhost = some g := by
      rw [Layer.forkL, Layer.lookupGhost, hg]
    rw [Layer.getGhostL, h1]

/-- Witness for C10: a fork of a layer with a cached ghost finds that ghost. -/
theorem c10_getGhost_idempotent_and_shared_witness :
    (Layer.mk 0 [] (some (Layer.mk 1 [] none [] false none)) [] false
        none).lookupGhost = some (Layer.mk 1 [] none [] false none) ∧
    ((Layer.mk 0 [] (some (Layer.mk 1 [] none [] false none)) [] false
        none).forkL 5).getGhostL 7 =
      (Layer.mk 1 [] none [] false none,
       (Layer.mk 0 [] (some (Layer.mk 1 [] none [] false none)) [] false
         none).forkL 5) := by
  refine ⟨rfl, ?_⟩
  exact c10_getGhost_idempotent_and_shared.2
    (Layer.mk 0 [] (some (Layer.mk 1 [] none [] false none)) [] false none)
    (Layer.mk 1 [] none [] false none) 5 7 rfl

/-! ## Field masks (model.js, `$createFieldMask`/`__createFieldMask`,
    lines 347-391)

A field mask value is `true`/`false` or a name-keyed mapping of nested masks
(spec section 3).  Scalar field types are drawn from `Fin n`; a schema tells,
for each type, whether it is a primitive leaf or a model type with declared
fields.  `__createFieldMask`'s recursion is rendered with a fuel argument:
running out of fuel yields `none`, so `isSome` of the result is exactly
termination of the source's recursion. -/

inductive FieldMaskV where
  | bool (b : Bool)
  | map (entries : List (String × FieldMaskV))

/-- JavaScript truthiness of a mask value (`{}` is truthy, `false` is not). -/
def FieldMaskV.isTruthy : FieldMaskV → Bool
  | .bool b => b
  | .map _ => true

/-- `typeof rootFieldMask === 'object' ? rootFieldMask[name] : rootFieldMask`
(model.js line 376); an absent key reads `undefined`, which is falsy. -/
def subMaskFor (root : FieldMaskV) (name : String) : FieldMaskV :=
  match root with
  | .map m => (m.lookup name).getD (.bool false)
  | .bool b => .bool b

/-- A declared field as the mask engine sees it: its name, its scalar type
tag (`field.getScalar().getType()`), and whether it is exposed
(`field.isExposed()`). -/
structure FieldDef (n : Nat) where
  name : String
  scalarType : Fin n
  exposed : Bool
  deriving DecidableEq

/-- A schema maps each scalar type to `none` (a primitive leaf) or to the
declared fields of the model type it denotes. -/
def Schema (n : Nat) : Type := Fin n → Option (List (FieldDef n))

/-- The loop of `__createFieldMask` (model.js, lines 363-391): for each
declared field passing `filter`, a field whose scalar type is already in the
type stack is omitted; a field whose sub-selector is falsy is omitted; for
the rest, the nested mask is computed by `recurse` with the type pushed onto
the stack (the tail of the loop continues with the original stack — the
functional rendering of add-then-delete). -/
def maskEntries {n : Nat} (filter : FieldDef n → Bool)
    (recurse : Fin n → FieldMaskV → Finset (Fin n) → Option FieldMaskV)
    (flds : List (FieldDef n)) (root : FieldMaskV) (stack : Finset (Fin n)) :
    Option (List (String × FieldMaskV)) :=
  flds.foldr
    (fun f acc =>
      if filter f = false then acc
      else if f.scalarType ∈ stack then acc
      else
        let fm := subMaskFor root f.name
        if fm.isTruthy = false then acc
        else
          match recurse f.scalarType fm (insert f.scalarType stack), acc with
          | some sub, some tail => some ((f.name, sub) :: tail)
          | _, _ => none)
    (some [])

/-- Modelled from the spec: `field._createFieldMask` (field.js is not under
src/) normalizes the selector for the field's value type — spec section 4.4:
a primitive leaf keeps "select all" (`true`); a model type recursively
normalizes over its declared fields.  The fuel counts the nesting depth of
model types; `0` marks non-termination of the source's recursion. -/
def maskForField {n : Nat} (schema : Schema n) (filter : FieldDef n → Bool) :
    Nat → Fin n → FieldMaskV → Finset (Fin n) → Option FieldMaskV
  | 0, _, _, _ => none
  | fuel + 1, t, fm, stack =>
    match schema t with
    | none => some (.bool true)
    | some flds =>
      (maskEntries filter (maskForField schema filter fuel) flds fm stack).map .map

/-- `$createFieldMask(fields)` (model.js, lines 347-361): normalize the
selector over the model's declared fields with a type stack scoped to this
single call (it starts empty).  A fuel of `n` (the number of scalar types)
is enough for every nesting the stack discipline allows. -/
def createFieldMaskM {n : Nat} (schema : Schema n) (filter : FieldDef n → Bool)
    (flds : List (FieldDef n)) (fieldsArg : FieldMaskV) :
    Option (List (String × FieldMaskV)) :=
  maskEntries filter (maskForField schema filter n) flds fieldsArg ∅

@[simp] lemma maskEntries_nil {n : Nat} (filter : FieldDef n → Bool)
    (recurse : Fin n → FieldMaskV → Finset (Fin n) → Option FieldMaskV)
    (root : FieldMaskV) (stack : Finset (Fin n)) :
    maskEntries filter recurse [] root stack = some [] := rfl

lemma maskEntries_cons {n : Nat} (filter : FieldDef n → Bool)
    (recurse : Fin n → FieldMaskV → Finset (Fin n) → Option FieldMaskV)
    (f : FieldDef n) (rest : List (FieldDef n)) (root : FieldMaskV)
    (stack : Finset (Fin n)) :
    maskEntries filter recurse (f :: rest) root stack =
      (if filter f = false then maskEntries filter recurse rest root stack
       else if f.scalarType ∈ stack then maskEntries filter recurse rest root stack
       else
         let fm := subMaskFor root f.name
         if fm.isTruthy = false then maskEntries filter recurse rest root stack
         else
           match recurse f.scalarType fm (insert f.scalarType stack),
               maskEntries filter recurse rest root stack with
           | some sub, some tail => some ((f.name, sub) :: tail)
           | _, _ => none) := rfl

lemma maskEntries_isSome {n : Nat} (filter : FieldDef n → Bool)
    (recurse : Fin n → FieldMaskV → Finset (Fin n) → Option FieldMaskV)
    (flds : List (FieldDef n)) (root : FieldMaskV) (stack : Finset (Fin n))
    (h : ∀ t fm, t ∉ stack → (recurse t fm (insert t stack)).isSome = true) :
    (maskEntries filter recurse flds root stack).isSome = true := by
  induction flds with
  | nil => rfl
  | cons f rest ih =>
    rw [maskEntries_cons]
    by_cases h1 : filter f = false
    · simp only [if_pos h1]
      exact ih
    · rw [if_neg h1]
      by_cases h2 : f.scalarType ∈ stack
      · rw [if_pos h2]
        exact ih
      · rw [if_neg h2]
        by_cases h3 : (subMaskFor root f.name).isTruthy = false
        · simp only [if_pos h3]
          exact ih
        · simp only [if_neg h3]
          have hrec := h f.scalarType (subMaskFor root f.name) h2
          have htail := ih
          cases hr : recurse f.scalarType (subMaskFor root f.name)
              (insert f.scalarType stack) with
          | none => rw [hr] at hrec; simp at hrec
          | some sub =>
            cases ht : maskEntries filter recurse rest root stack with
            | none => rw [ht] at htail; simp at htail
            | some tail => rfl

lemma maskForField_isSome {n : Nat} (schema : Schema n)
    (filter : FieldDef n → Bool) :
    ∀ (fuel : Nat) (stack : Finset (Fin n)) (t : Fin n) (fm : FieldMaskV),
      n - stack.card < fuel →
      (maskForField schema filter fuel t fm stack).isSome = true := by
  intro fuel
  induction fuel with
  | zero =>
    intro stack t fm h
    exact absurd h (Nat.not_lt_zero _)
  | succ fuel ih =>
    intro stack t fm h
    rw [maskForField]
    cases hs : schema t with
    | none => rfl
    | some flds =>
      have hsome : (maskEntries filter (maskForField schema filter fuel) flds fm
          stack).isSome = true := by
        apply maskEntries_isSome
        intro t' fm' ht'
        apply ih
        have hcard : (insert t' stack).card = stack.card + 1 :=
          Finset.card_insert_of_not_mem ht'
        have hle : (insert t' stack).card ≤ n := by
          have := Finset.card_le_univ (insert t' stack)
          simpa using this
        omega
      cases hme : maskEntries filter (maskForField schema filter fuel) flds fm
          stack with
      | none => rw [hme] at hsome; exact absurd hsome (by simp)
      | some l =>
        show (Option.map FieldMaskV.map (maskEntries filter
          (maskForField schema filter fuel) flds fm stack)).isSome = true
        rw [hme]
        rfl

lemma maskEntries_key_mem {n : Nat} (filter : FieldDef n → Bool)
    (recurse : Fin n → FieldMaskV → Finset (Fin n) → Option FieldMaskV)
    (flds : List (FieldDef n)) (root : FieldMaskV) (stack : Finset (Fin n))
    (res : List (String × FieldMaskV)) (name : String)
    (hres : maskEntries filter recurse flds root stack = some res)
    (hmem : name ∈ res.map Prod.fst) :
    ∃ f ∈ flds, f.name = name ∧ filter f = true ∧ f.scalarType ∉ stack ∧
      (subMaskFor root f.name).isTruthy = true := by
  induction flds generalizing res with
  | nil =>
    rw [maskEntries_nil] at hres
    cases hres
    simp at hmem
  | cons f rest ih =>
    rw [maskEntries_cons] at hres
    by_cases h1 : filter f = false
    · rw [if_pos h1] at hres
      obtain ⟨g, hg, hgs⟩ := ih res hres hmem
      exact ⟨g, List.mem_cons_of_mem f hg, hgs⟩
    · rw [if_neg h1] at hres
      by_cases h2 : f.scalarType ∈ stack
      · rw [if_pos h2] at hres
        obtain ⟨g, hg, hgs⟩ := ih res hres hmem
        exact ⟨g, List.mem_cons_of_mem f hg, hgs⟩
      · rw [if_neg h2] at hres
        by_cases h3 : (subMaskFor root f.name).isTruthy = false
        · simp only [if_pos h3] at hres
          obtain ⟨g, hg, hgs⟩ := ih res hres hmem
          exact ⟨g, List.mem_cons_of_mem f hg, hgs⟩
        · simp only [if_neg h3] at hres
          cases hr : recurse f.scalarType (subMaskFor root f.name)
              (insert f.scalarType stack) with
          | none => rw [hr] at hres; cases hres
          | some sub =>
            rw [hr] at hres
            cases ht : maskEntries filter recurse rest root stack with
            | none => rw [ht] at hres; cases hres
            | some tail =>
              rw [ht] at hres
              cases hres
              simp only [List.map_cons, List.mem_cons] at hmem
              rcases hmem with heq | hmem
              · refine ⟨f, List.mem_cons_self f rest, heq.symm ▸ rfl, ?_, h2, ?_⟩
                · cases hf : filter f with
                  | true => rfl
                  | false => exact absurd hf h1
                · cases hm : (subMaskFor root f.name).isTruthy with
                  | true => rfl
                  | false => exact absurd hm h3
              · obtain ⟨g, hg, hgs⟩ := ih tail ht hmem
                exact ⟨g, List.mem_cons_of_mem f hg, hgs⟩

/-- C2: constructing a field mask terminates for every schema, including
self-referential ones — with fuel `n` (one unit per distinct scalar type,
plus the stack discipline that pushes a type before a field's recursive
expansion and continues the loop with the original stack) the construction
never exhausts its fuel from the empty, call-scoped stack — and a declared
field whose scalar type is already on the stack contributes nothing to the
resulting mask. -/
theorem c2_createFieldMask_cycle_safe {n : Nat} (schema : Schema n)
    (filter : FieldDef n → Bool) (flds : List (FieldDef n))
    (fieldsArg : FieldMaskV) (stack : Finset (Fin n))
    (res : List (String × FieldMaskV)) (f : FieldDef n)
    (hres : maskEntries filter (maskForField schema filter n) flds fieldsArg
      stack = some res)
    (hf : f ∈ flds) (hstack : f.scalarType ∈ stack)
    (hnodup : (flds.map FieldDef.name).Nodup) :
    (createFieldMaskM schema filter flds fieldsArg).isSome = true ∧
    f.name ∉ res.map Prod.fst := by
  constructor
  · apply maskEntries_isSome
    intro t fm ht
    apply maskForField_isSome
    have hpos : 0 < n := t.pos
    have hcard : (insert t (∅ : Finset (Fin n))).card = 1 := by simp
    omega
  · intro hmem
    obtain ⟨g, hg, hgname, -, hgstack, -⟩ :=
      maskEntries_key_mem filter (maskForField schema filter n) flds fieldsArg
        stack res f.name hres hmem
    have : g = f := List.inj_on_of_nodup_map hnodup hg hf hgname
    exact hgstack (this ▸ hstack)

/-- Witness for C2 on a self-referential one-type schema: the field whose
type is already on the stack is omitted, and the top-level construction
succeeds. -/
theorem c2_createFieldMask_cycle_safe_witness :
    (maskEntries (fun _ => true)
        (maskForField (fun _ => some [FieldDef.mk "self" 0 true]) (fun _ => true) 1)
        [FieldDef.mk "self" (0 : Fin 1) true] (.bool true) {0} = some []) ∧
    FieldDef.mk "self" (0 : Fin 1) true ∈ [FieldDef.mk "self" (0 : Fin 1) true] ∧
    (FieldDef.mk "self" (0 : Fin 1) true).scalarType ∈ ({0} : Finset (Fin 1)) ∧
    (([FieldDef.mk "self" (0 : Fin 1) true].map FieldDef.name).Nodup) ∧
    ((createFieldMaskM (fun _ => some [FieldDef.mk "self" 0 true]) (fun _ => true)
        [FieldDef.mk "self" (0 : Fin 1) true] (.bool true)).isSome = true ∧
      (FieldDef.mk "self" (0 : Fin 1) true).name ∉
        ([] : List (String × FieldMaskV)).map Prod.fst) := by
  have hres : maskEntries (fun _ => true)
      (maskForField (fun _ => some [FieldDef.mk "self" 0 true]) (fun _ => true) 1)
      [FieldDef.mk "self" (0 : Fin 1) true] (.bool true) {0} = some [] := by
    rw [maskEntries_cons]
    simp
  refine ⟨hres, List.mem_singleton.mpr rfl, by decide, by simp, ?_⟩
  exact c2_createFieldMask_cycle_safe (fun _ => some [FieldDef.mk "self" 0 true])
    (fun _ => true) [FieldDef.mk "self" (0 : Fin 1) true] (.bool true) {0} []
    (FieldDef.mk "self" (0 : Fin 1) true) hres (List.mem_singleton.mpr rfl)
    (by decide) (by simp)

/-! ## Serialization (model.js, `$serialize`, lines 72-105) -/

/-- The registry identity the instance can see: its layer's id and, when the
layer has a parent, the parent's id (`$getLayer().getId()` /
`getParent().getId()` come from the layer identity collaborator). -/
structure LayerInfo where
  lid : String
  parentId : Option String
  deriving DecidableEq

/-- A field as `$serialize` sees it: the declared field, whether it is
active, and the opaque recursive `field.serializeValue({target, fields})`
(whose `none` models a serialized value of `undefined`). -/
structure SField (n : Nat) where
  fdef : FieldDef n
  active : Bool
  serializeValue : Option String → FieldMaskV → Option JSValue

/-- A model instance for serialization: its fields, its (optional) layer
identity, and the base identity mapping contributed by
`super.$serialize()` (the identity/versioning collaborator). -/
structure MInst (n : Nat) where
  fields : List (SField n)
  layer : Option LayerInfo
  base : List (String × JSValue)

/-- `targetIsLower()` (model.js, lines 73-81): false when `target` is
undefined; otherwise true unless `target` equals this instance's layer id or
its parent layer's id. -/
def targetIsLower {n : Nat} (inst : MInst n) (target : Option String) : Bool :=
  match target with
  | none => false
  | some t =>
    !((some t == inst.layer.map LayerInfo.lid) ||
      (some t == inst.layer.bind LayerInfo.parentId))

/-- `$createFieldMaskForExposedFields(fields)` (model.js, lines 401-407):
the mask computation filtered to exposed fields. -/
def createFieldMaskForExposedM {n : Nat} (schema : Schema n)
    (flds : List (FieldDef n)) (fieldsArg : FieldMaskV) :
    Option (List (String × FieldMaskV)) :=
  createFieldMaskM schema (fun f => f.exposed) flds fieldsArg

/-- JavaScript spread merge `{...a, ...b}` on entry lists: keys of `b` win,
remaining keys of `a` are kept. -/
def spreadMerge (a b : List (String × JSValue)) : List (String × JSValue) :=
  a.filter (fun kv => (b.lookup kv.1).isNone) ++ b

/-- The `$serialize` field loop (model.js, lines 89-102): for every active
field selected by the root mask (`rootFieldMask.get(name)` is the mask entry
or `false`, per the spec's FieldMask contract — field-mask.js is not under
src/), serialize the value with the nested mask and `target`, omitting
fields whose serialized value is `undefined`. -/
def serializeLoop {n : Nat} :
    List (SField n) → List (String × FieldMaskV) → Option String →
      List (String × JSValue)
  | [], _, _ => []
  | f :: rest, rootMask, target =>
    if f.active = false then serializeLoop rest rootMask target
    else
      let fieldMask := (rootMask.lookup f.fdef.name).getD (.bool false)
      if fieldMask.isTruthy = false then serializeLoop rest rootMask target
      else
        match f.serializeValue target fieldMask with
        | none => serializeLoop rest rootMask target
        | some v => (f.fdef.name, v) :: serializeLoop rest rootMask target

/-- `$serialize({target, fields})` (model.js, lines 72-105): pick the root
mask by `targetIsLower`, run the field loop, and spread the field-derived
keys over the base identity mapping. -/
def serializeM {n : Nat} (schema : Schema n) (inst : MInst n)
    (target : Option String) (fieldsArg : FieldMaskV) :
    Option (List (String × JSValue)) :=
  match (if targetIsLower inst target
    then createFieldMaskForExposedM schema (inst.fields.map SField.fdef) fieldsArg
    else createFieldMaskM schema (fun _ => true) (inst.fields.map SField.fdef)
      fieldsArg) with
  | none => none
  | some rootMask =>
    some (spreadMerge inst.base (serializeLoop inst.fields rootMask target))

lemma serializeLoop_mem {n : Nat} (fields : List (SField n))
    (rootMask : List (String × FieldMaskV)) (target : Option String)
    (name : String) :
    name ∈ (serializeLoop fields rootMask target).map Prod.fst ↔
      ∃ f ∈ fields, f.fdef.name = name ∧ f.active = true ∧
        ((rootMask.lookup name).getD (.bool false)).isTruthy = true ∧
        f.serializeValue target ((rootMask.lookup name).getD (.bool false)) ≠
          none := by
  induction fields with
  | nil => simp [serializeLoop]
  | cons f rest ih =>
    rw [serializeLoop]
    by_cases ha : f.active = false
    · rw [if_pos ha, ih]
      constructor
      · rintro ⟨g, hg, hgs⟩
        exact ⟨g, List.mem_cons_of_mem f hg, hgs⟩
      · rintro ⟨g, hg, hname, hact, hrest⟩
        rcases List.mem_cons.mp hg with heq | hmem
        · subst heq
          rw [ha] at hact
          cases hact
        · exact ⟨g, hmem, hname, hact, hrest⟩
    · have ha' : f.active = true := by
        cases hfa : f.active with
        | true => rfl
        | false => exact absurd hfa ha
      rw [if_neg ha]
      by_cases hm : ((rootMask.lookup f.fdef.name).getD (.bool false)).isTruthy
          = false
      · simp only [if_pos hm, ih]
        constructor
        · rintro ⟨g, hg, hgs⟩
          exact ⟨g, List.mem_cons_of_mem f hg, hgs⟩
        · rintro ⟨g, hg, hname, hact, htru, hrest⟩
          rcases List.mem_cons.mp hg with heq | hmem
          · subst heq
            rw [hname] at hm
            rw [hm] at htru
            cases htru
          · exact ⟨g, hmem, hname, hact, htru, hrest⟩
      · have hm' : ((rootMask.lookup f.fdef.name).getD (.bool false)).isTruthy
            = true := by
          cases hft : ((rootMask.lookup f.fdef.name).getD (.bool false)).isTruthy
            with
          | true => rfl
          | false => exact absurd hft hm
        simp only [if_neg hm]
        cases hs : f.serializeValue target
            ((rootMask.lookup f.fdef.name).getD (.bool false)) with
        | none =>
          rw [ih]
          constructor
          · rintro ⟨g, hg, hgs⟩
            exact ⟨g, List.mem_cons_of_mem f hg, hgs⟩
          · rintro ⟨g, hg, hname, hact, htru, hrest⟩
            rcases List.mem_cons.mp hg with heq | hmem
            · subst heq
              rw [hname] at hs
              exact absurd hs hrest
            · exact ⟨g, hmem, hname, hact, htru, hrest⟩
        | some v =>
          rw [List.map_cons]
          constructor
          · intro hmem
            rcases List.mem_cons.mp hmem with heq | hmem'
            · subst heq
              exact ⟨f, List.mem_cons_self f rest, rfl, ha', hm', by
                rw [hs]; exact Option.some_ne_none v⟩
            · obtain ⟨g, hg, hgs⟩ := (ih).mp hmem'
              exact ⟨g, List.mem_cons_of_mem f hg, hgs⟩
          · rintro ⟨g, hg, hname, hact, htru, hrest⟩
            rcases List.mem_cons.mp hg with heq | hmem'
            · subst heq
              exact List.mem_cons.mpr (Or.inl hname.symm)
            · exact List.mem_cons.mpr
                (Or.inr ((ih).mpr ⟨g, hmem', hname, hact, htru, hrest⟩))

lemma mem_keys_of_lookup_isSome {β : Type} {l : List (String × β)} {k : String}
    (h : (l.lookup k).isSome = true) : k ∈ l.map Prod.fst := by
  induction l with
  | nil => simp [List.lookup] at h
  | cons a rest ih =>
    cases a with
    | mk k' v =>
      by_cases hk : k = k'
      · subst hk
        simp
      · have hb : (k == k') = false := beq_eq_false_iff_ne.mpr hk
        rw [List.lookup, hb] at h
        exact List.mem_cons_of_mem _ (ih h)

lemma spreadMerge_mem (a b : List (String × JSValue)) (name : String) :
    name ∈ (spreadMerge a b).map Prod.fst ↔
      (name ∈ a.map Prod.fst ∨ name ∈ b.map Prod.fst) := by
  unfold spreadMerge
  rw [List.map_append, List.mem_append]
  constructor
  · rintro (hmem | hmem)
    · left
      obtain ⟨kv, hkv, hfst⟩ := List.mem_map.mp hmem
      exact List.mem_map.mpr ⟨kv, (List.mem_filter.mp hkv).1, hfst⟩
    · exact Or.inr hmem
  · rintro (hmem | hmem)
    · by_cases hb : name ∈ b.map Prod.fst
      · exact Or.inr hb
      · left
        obtain ⟨kv, hkv, hfst⟩ := List.mem_map.mp hmem
        refine List.mem_map.mpr ⟨kv, List.mem_filter.mpr ⟨hkv, ?_⟩, hfst⟩
        have : b.lookup kv.1 = none := by
          apply lookup_eq_none_of_not_mem_keys
          rw [hfst]
          exact hb
        simp [this]
    · exact Or.inr hmem

/-- C1: `$serialize({target, fields})` picks the exposed-fields mask exactly
when `target` is supplied and equals neither the instance's layer id nor its
parent layer's id (and the full requested mask otherwise), and — provided
field names are unique and the base identity keys do not collide with field
names — a field's name appears in the output iff the field is active, the
root mask selects it, and its recursively serialized value is not
`undefined`. -/
theorem c1_serialize_root_mask_and_membership {n : Nat} (schema : Schema n)
    (inst : MInst n) (target : Option String) (fieldsArg : FieldMaskV)
    (hnodup : (inst.fields.map (fun f => f.fdef.name)).Nodup)
    (hbase : ∀ f ∈ inst.fields, f.fdef.name ∉ inst.base.map Prod.fst) :
    (targetIsLower inst target = true ↔
      (target ≠ none ∧ target ≠ inst.layer.map LayerInfo.lid ∧
       target ≠ inst.layer.bind LayerInfo.parentId)) ∧
    ∃ m out,
      (if targetIsLower inst target
        then createFieldMaskForExposedM schema (inst.fields.map SField.fdef)
          fieldsArg
        else createFieldMaskM schema (fun _ => true)
          (inst.fields.map SField.fdef) fieldsArg) = some m ∧
      serializeM schema inst target fieldsArg = some out ∧
      ∀ f ∈ inst.fields,
        (f.fdef.name ∈ out.map Prod.fst ↔
          (f.active = true ∧
           ((m.lookup f.fdef.name).getD (.bool false)).isTruthy = true ∧
           f.serializeValue target ((m.lookup f.fdef.name).getD (.bool false)) ≠
             none)) := by
  constructor
  · cases target with
    | none => simp [targetIsLower]
    | some t =>
      rw [targetIsLower]
      constructor
      · intro h
        rw [Bool.not_eq_true', Bool.or_eq_false_iff] at h
        refine ⟨Option.some_ne_none t, ?_, ?_⟩
        · intro hc
          rw [← hc] at h
          simp at h
        · intro hc
          rw [← hc] at h
          simp at h
      · rintro ⟨-, h1, h2⟩
        rw [Bool.not_eq_true', Bool.or_eq_false_iff]
        constructor
        · rw [beq_eq_false_iff_ne]
          exact fun hc => h1 hc
        · rw [beq_eq_false_iff_ne]
          exact fun hc => h2 hc
  · have hmask : (if targetIsLower inst target
        then createFieldMaskForExposedM schema (inst.fields.map SField.fdef)
          fieldsArg
        else createFieldMaskM schema (fun _ => true)
          (inst.fields.map SField.fdef) fieldsArg).isSome = true := by
      have htotal : ∀ filter, (createFieldMaskM schema filter
          (inst.fields.map SField.fdef) fieldsArg).isSome = true := by
        intro filter
        apply maskEntries_isSome
        intro t fm ht
        apply maskForField_isSome
        have hpos : 0 < n := t.pos
        have hcard : (insert t (∅ : Finset (Fin n))).card = 1 := by simp
        omega
      cases htl : targetIsLower inst target with
      | true => simpa [createFieldMaskForExposedM] using htotal (fun f => f.exposed)
      | false => simpa using htotal (fun _ => true)
    cases hm : (if targetIsLower inst target
        then createFieldMaskForExposedM schema (inst.fields.map SField.fdef)
          fieldsArg
        else createFieldMaskM schema (fun _ => true)
          (inst.fields.map SField.fdef) fieldsArg) with
    | none => rw [hm] at hmask; exact absurd hmask (by simp)
    | some m =>
      refine ⟨m, spreadMerge inst.base (serializeLoop inst.fields m target),
        rfl, ?_, ?_⟩
      · rw [serializeM, hm]
      · intro f hf
        rw [spreadMerge_mem]
        constructor
        · rintro (hmem | hmem)
          · exact absurd hmem (hbase f hf)
          · obtain ⟨g, hg, hgname, hgact, hgtru, hgser⟩ :=
              (serializeLoop_mem inst.fields m target f.fdef.name).mp hmem
            have hgf : g = f := by
              have := List.inj_on_of_nodup_map hnodup
              exact this hg hf hgname
            subst hgf
            exact ⟨hgact, hgtru, hgser⟩
        · rintro ⟨hact, htru, hser⟩
          refine Or.inr ((serializeLoop_mem inst.fields m target
            f.fdef.name).mpr ⟨f, hf, rfl, hact, htru, hser⟩)

/-- Witness for C1: one exposed inactive field and one exposed active field
with a defined serialized value, serialized toward an unrelated target. -/
theorem c1_serialize_root_mask_and_membership_witness :
    (([SField.mk (FieldDef.mk "title" (0 : Fin 1) true) true
          (fun _ _ => some (.str "Inception")),
        SField.mk (FieldDef.mk "year" (0 : Fin 1) true) false
          (fun _ _ => some (.number 2010))].map
        (fun f => f.fdef.name)).Nodup) ∧
    (∀ f ∈ [SField.mk (FieldDef.mk "title" (0 : Fin 1) true) true
          (fun _ _ => some (.str "Inception")),
        SField.mk (FieldDef.mk "year" (0 : Fin 1) true) false
          (fun _ _ => some (.number 2010))],
      f.fdef.name ∉ ([] : List (String × JSValue)).map Prod.fst) ∧
    (targetIsLower
        (MInst.mk (n := 1)
          [SField.mk (FieldDef.mk "title" (0 : Fin 1) true) true
            (fun _ _ => some (.str "Inception")),
           SField.mk (FieldDef.mk "year" (0 : Fin 1) true) false
            (fun _ _ => some (.number 2010))]
          (some (LayerInfo.mk "frontend" none)) [])
        (some "backend") = true ↔
      (some "backend" ≠ none ∧
       (some "backend" : Option String) ≠ (some (LayerInfo.mk "frontend" none)).map
         LayerInfo.lid ∧
       (some "backend" : Option String) ≠ (some (LayerInfo.mk "frontend" none)).bind
         LayerInfo.parentId)) := by
  refine ⟨by simp, by simp, ?_⟩
  exact (c1_serialize_root_mask_and_membership
    (fun _ => some [FieldDef.mk "title" 0 true, FieldDef.mk "year" 0 true])
    (MInst.mk
      [SField.mk (FieldDef.mk "title" (0 : Fin 1) true) true
        (fun _ _ => some (.str "Inception")),
       SField.mk (FieldDef.mk "year" (0 : Fin 1) true) false
        (fun _ _ => some (.number 2010))]
      (some (LayerInfo.mk "frontend" none)) [])
    (some "backend") (.bool true) (by simp) (by simp)).1

/-! ## Deserialization (model.js, `$deserialize`, lines 107-143) -/

/-- A field as `$deserialize` sees it: the declared field, its state, its
computed default, and the opaque recursive
`field.deserializeValue(value, {source, fields})`.  Modelled from the spec:
field.js is not under src/; deserializing a raw value into the field stores
the deserialized value (first component) and activates the field, and
reports the sub-fields that deserialization found missing (second
component). -/
structure DField (n : Nat) where
  fdef : FieldDef n
  active : Bool
  value : JSValue
  dflt : JSValue
  deserializeValue : JSValue → Option String → FieldMaskV → JSValue × Option FieldMaskV

/-- Storing a value into a field makes it active (spec section 3: a field is
active once it has been set/created). -/
def DField.storeValue {n : Nat} (f : DField n) (v : JSValue) : DField n :=
  { f with active := true, value := v }

/-- A model instance for deserialization: its declared fields and its
`$isNew()` flag. -/
structure DInst (n : Nat) where
  fields : List (DField n)
  isNewI : Bool

/-- The `$deserialize` field loop (model.js, lines 114-140): for every
declared field selected by the root mask — `rootFieldMask.get(name)`, or
`false` when absent — if the object carries the key, deserialize the raw
value into the field and record the reported missing sub-fields under the
field's name; else, if the instance is new, set the field to its computed
default; else record the field itself (with its mask) as missing.  The
missing-fields tree (`new FieldMask()` + `set`, field-mask.js not under
src/) is an entry list that stays absent while no field is missing. -/
def deserializeLoop {n : Nat} :
    List (DField n) → List (String × FieldMaskV) → List (String × JSValue) →
      Option String → Bool →
      List (DField n) × Option (List (String × FieldMaskV))
  | [], _, _, _, _ => ([], none)
  | f :: rest, rootMask, object, source, isN =>
    let L := deserializeLoop rest rootMask object source isN
    let name := f.fdef.name
    let fieldMask := (rootMask.lookup name).getD (.bool false)
    if fieldMask.isTruthy = false then (f :: L.1, L.2)
    else
      match object.lookup name with
      | some raw =>
        match (f.deserializeValue raw source fieldMask).2 with
        | some mm =>
          (f.storeValue (f.deserializeValue raw source fieldMask).1 :: L.1,
           some ((name, mm) :: L.2.getD []))
        | none =>
          (f.storeValue (f.deserializeValue raw source fieldMask).1 :: L.1, L.2)
      | none =>
        if isN = true then
          (f.storeValue f.dflt :: L.1, L.2)
        else
          (f :: L.1, some ((name, fieldMask) :: L.2.getD []))

/-- `$deserialize(object, {source, fields})` (model.js, lines 107-143): the
root mask is the full requested mask (no exposure filter), and the loop
returns the updated fields together with the aggregated missing-fields
tree. -/
def deserializeM {n : Nat} (schema : Schema n) (inst : DInst n)
    (object : List (String × JSValue)) (source : Option String)
    (fieldsArg : FieldMaskV) :
    Option (List (DField n) × Option (List (String × FieldMaskV))) :=
  match createFieldMaskM schema (fun _ => true) (inst.fields.map DField.fdef)
      fieldsArg with
  | none => none
  | some rootMask =>
    some (deserializeLoop inst.fields rootMask object source inst.isNewI)

/-- The per-field contract of `$deserialize`, relative to the root mask `m`,
the input `object`, the `source`, the `isNew` flag, and the lookup `μ` into
the returned missing-fields tree: an unselected field is untouched; a
selected field present in `object` is overwritten by its deserialized value
with the reported missing sub-fields recorded under its name; a selected
absent field is defaulted when the instance is new, and otherwise recorded
as missing with its nested mask. -/
def deserFieldRel {n : Nat} (m : List (String × FieldMaskV))
    (object : List (String × JSValue)) (source : Option String) (isN : Bool)
    (μ : String → Option FieldMaskV) (f f' : DField n) : Prop :=
  (((m.lookup f.fdef.name).getD (.bool false)).isTruthy = false → f' = f) ∧
  (((m.lookup f.fdef.name).getD (.bool false)).isTruthy = true →
    (∀ raw, object.lookup f.fdef.name = some raw →
      f' = f.storeValue (f.deserializeValue raw source
        ((m.lookup f.fdef.name).getD (.bool false))).1 ∧
      μ f.fdef.name = (f.deserializeValue raw source
        ((m.lookup f.fdef.name).getD (.bool false))).2) ∧
    (object.lookup f.fdef.name = none → isN = true →
      f' = f.storeValue f.dflt ∧ μ f.fdef.name = none) ∧
    (object.lookup f.fdef.name = none → isN = false →
      f' = f ∧ μ f.fdef.name = some ((m.lookup f.fdef.name).getD (.bool false))))

lemma forall2_rel_transfer {n : Nat} {m : List (String × FieldMaskV)}
    {object : List (String × JSValue)} {source : Option String} {isN : Bool}
    {μ1 μ2 : String → Option FieldMaskV} {rest rest' : List (DField n)}
    (h : List.Forall₂ (deserFieldRel m object source isN μ1) rest rest')
    (hagree : ∀ g ∈ rest, μ2 g.fdef.name = μ1 g.fdef.name) :
    List.Forall₂ (deserFieldRel m object source isN μ2) rest rest' := by
  induction h with
  | nil => exact List.Forall₂.nil
  | @cons a b l1 l2 hab hl ih =>
    refine List.Forall₂.cons ?_
      (ih (fun g hg => hagree g (List.mem_cons_of_mem a hg)))
    have hμ := hagree a (List.mem_cons_self a l1)
    unfold deserFieldRel at hab ⊢
    rw [hμ]
    exact hab

lemma deserializeLoop_cons_skip {n : Nat} (f : DField n) (rest : List (DField n))
    (m : List (String × FieldMaskV)) (object : List (String × JSValue))
    (source : Option String) (isN : Bool)
    (ht : ((m.lookup f.fdef.name).getD (.bool false)).isTruthy = false) :
    deserializeLoop (f :: rest) m object source isN =
      (f :: (deserializeLoop rest m object source isN).1,
       (deserializeLoop rest m object source isN).2) := by
  simp only [deserializeLoop, if_pos ht]

lemma deserializeLoop_cons_present_missing {n : Nat} (f : DField n)
    (rest : List (DField n)) (m : List (String × FieldMaskV))
    (object : List (String × JSValue)) (source : Option String) (isN : Bool)
    (raw : JSValue) (mm : FieldMaskV)
    (ht : ¬((m.lookup f.fdef.name).getD (.bool false)).isTruthy = false)
    (ho : object.lookup f.fdef.name = some raw)
    (hd : (f.deserializeValue raw source
      ((m.lookup f.fdef.name).getD (.bool false))).2 = some mm) :
    deserializeLoop (f :: rest) m object source isN =
      (f.storeValue (f.deserializeValue raw source
          ((m.lookup f.fdef.name).getD (.bool false))).1 ::
         (deserializeLoop rest m object source isN).1,
       some ((f.fdef.name, mm) ::
         (deserializeLoop rest m object source isN).2.getD [])) := by
  simp only [deserializeLoop, if_neg ht, ho, hd]

lemma deserializeLoop_cons_present_clean {n : Nat} (f : DField n)
    (rest : List (DField n)) (m : List (String × FieldMaskV))
    (object : List (String × JSValue)) (source : Option String) (isN : Bool)
    (raw : JSValue)
    (ht : ¬((m.lookup f.fdef.name).getD (.bool false)).isTruthy = false)
    (ho : object.lookup f.fdef.name = some raw)
    (hd : (f.deserializeValue raw source
      ((m.lookup f.fdef.name).getD (.bool false))).2 = none) :
    deserializeLoop (f :: rest) m object source isN =
      (f.storeValue (f.deserializeValue raw source
          ((m.lookup f.fdef.name).getD (.bool false))).1 ::
         (deserializeLoop rest m object source isN).1,
       (deserializeLoop rest m object source isN).2) := by
  simp only [deserializeLoop, if_neg ht, ho, hd]

lemma deserializeLoop_cons_absent_new {n : Nat} (f : DField n)
    (rest : List (DField n)) (m : List (String × FieldMaskV))
    (object : List (String × JSValue)) (source : Option String) (isN : Bool)
    (ht : ¬((m.lookup f.fdef.name).getD (.bool false)).isTruthy = false)
    (ho : object.lookup f.fdef.name = none) (hnew : isN = true) :
    deserializeLoop (f :: rest) m object source isN =
      (f.storeValue f.dflt :: (deserializeLoop rest m object source isN).1,
       (deserializeLoop rest m object source isN).2) := by
  simp only [deserializeLoop, if_neg ht, ho, hnew]
  simp

lemma deserializeLoop_cons_absent_old {n : Nat} (f : DField n)
    (rest : List (DField n)) (m : List (String × FieldMaskV))
    (object : List (String × JSValue)) (source : Option String) (isN : Bool)
    (ht : ¬((m.lookup f.fdef.name).getD (.bool false)).isTruthy = false)
    (ho : object.lookup f.fdef.name = none) (hnew : isN = false) :
    deserializeLoop (f :: rest) m object source isN =
      (f :: (deserializeLoop rest m object source isN).1,
       some ((f.fdef.name, (m.lookup f.fdef.name).getD (.bool false)) ::
         (deserializeLoop rest m object source isN).2.getD [])) := by
  simp only [deserializeLoop, if_neg ht, ho, hnew]
  simp

lemma deserializeLoop_missing_lookup_none {n : Nat}
    (fields : List (DField n)) (m : List (String × FieldMaskV))
    (object : List (String × JSValue)) (source : Option String) (isN : Bool)
    (name : String) (h : name ∉ fields.map (fun f => f.fdef.name)) :
    ((deserializeLoop fields m object source isN).2.getD []).lookup name =
      none := by
  induction fields with
  | nil => rfl
  | cons f rest ih =>
    simp only [List.map_cons, List.mem_cons, not_or] at h
    obtain ⟨hne, hrest⟩ := h
    have ihr := ih hrest
    have hbeq : (name == f.fdef.name) = false := beq_eq_false_iff_ne.mpr hne
    by_cases ht : ((m.lookup f.fdef.name).getD (.bool false)).isTruthy = false
    · rw [deserializeLoop_cons_skip f rest m object source isN ht]
      exact ihr
    · cases ho : object.lookup f.fdef.name with
      | some raw =>
        cases hd : (f.deserializeValue raw source
            ((m.lookup f.fdef.name).getD (.bool false))).2 with
        | some mm =>
          rw [deserializeLoop_cons_present_missing f rest m object source isN
            raw mm ht ho hd]
          simp only [Option.getD_some, List.lookup, hbeq]
          exact ihr
        | none =>
          rw [deserializeLoop_cons_present_clean f rest m object source isN
            raw ht ho hd]
          exact ihr
      | none =>
        by_cases hnew : isN = true
        · rw [deserializeLoop_cons_absent_new f rest m object source isN
            ht ho hnew]
          exact ihr
        · rw [deserializeLoop_cons_absent_old f rest m object source isN
            ht ho (Bool.not_eq_true isN ▸ hnew)]
          simp only [Option.getD_some, List.lookup, hbeq]
          exact ihr

lemma deserializeLoop_spec {n : Nat} (m : List (String × FieldMaskV))
    (object : List (String × JSValue)) (source : Option String) (isN : Bool) :
    ∀ (fields : List (DField n)),
      (fields.map (fun f => f.fdef.name)).Nodup →
      List.Forall₂ (deserFieldRel m object source isN
          (fun name =>
            ((deserializeLoop fields m object source isN).2.getD []).lookup name))
        fields (deserializeLoop fields m object source isN).1 := by
  intro fields
  induction fields with
  | nil =>
    intro _
    exact List.Forall₂.nil
  | cons f rest ih =>
    intro hnodup
    simp only [List.map_cons, List.nodup_cons] at hnodup
    obtain ⟨hhead, hrest⟩ := hnodup
    have IH := ih hrest
    have htrans : ∀ g ∈ rest, (g.fdef.name == f.fdef.name) = false := by
      intro g hg
      apply beq_eq_false_iff_ne.mpr
      intro hc
      exact hhead (hc ▸ List.mem_map.mpr ⟨g, hg, rfl⟩)
    by_cases ht : ((m.lookup f.fdef.name).getD (.bool false)).isTruthy = false
    · rw [deserializeLoop_cons_skip f rest m object source isN ht]
      refine List.Forall₂.cons ?_ IH
      exact ⟨fun _ => rfl, fun htr => absurd htr (by rw [ht]; simp)⟩
    · have ht' : ((m.lookup f.fdef.name).getD (.bool false)).isTruthy = true := by
        cases hx : ((m.lookup f.fdef.name).getD (.bool false)).isTruthy with
        | true => rfl
        | false => exact absurd hx ht
      cases ho : object.lookup f.fdef.name with
      | some raw =>
        cases hd : (f.deserializeValue raw source
            ((m.lookup f.fdef.name).getD (.bool false))).2 with
        | some mm =>
          rw [deserializeLoop_cons_present_missing f rest m object source isN
            raw mm ht ho hd]
          refine List.Forall₂.cons ?_ ?_
          · refine ⟨fun hcon => absurd hcon (by rw [ht']; simp), fun _ =>
              ⟨fun raw' hraw' => ?_, fun hnone _ => ?_, fun hnone _ => ?_⟩⟩
            · have hrr : raw' = raw := by
                rw [ho] at hraw'
                exact (Option.some_injective _ hraw').symm
              subst hrr
              refine ⟨rfl, ?_⟩
              simp only [Option.getD_some, List.lookup, beq_self_eq_true, hd]
            · rw [ho] at hnone
              cases hnone
            · rw [ho] at hnone
              cases hnone
          · refine forall2_rel_transfer IH (fun g hg => ?_)
            simp only [Option.getD_some, List.lookup, htrans g hg]
        | none =>
          rw [deserializeLoop_cons_present_clean f rest m object source isN
            raw ht ho hd]
          refine List.Forall₂.cons ?_ IH
          refine ⟨fun hcon => absurd hcon (by rw [ht']; simp), fun _ =>
            ⟨fun raw' hraw' => ?_, fun hnone _ => ?_, fun hnone _ => ?_⟩⟩
          · have hrr : raw' = raw := by
              rw [ho] at hraw'
              exact (Option.some_injective _ hraw').symm
            subst hrr
            refine ⟨rfl, ?_⟩
            show ((deserializeLoop rest m object source isN).2.getD []).lookup
              f.fdef.name = _
            rw [deserializeLoop_missing_lookup_none rest m object source isN
              f.fdef.name hhead, hd]
          · rw [ho] at hnone
            cases hnone
          · rw [ho] at hnone
            cases hnone
      | none =>
        by_cases hnew : isN = true
        · rw [deserializeLoop_cons_absent_new f rest m object source isN
            ht ho hnew]
          refine List.Forall₂.cons ?_ IH
          refine ⟨fun hcon => absurd hcon (by rw [ht']; simp), fun _ =>
            ⟨fun raw' hraw' => ?_, fun _ _ => ⟨rfl, ?_⟩, fun _ hcon => ?_⟩⟩
          · rw [ho] at hraw'
            cases hraw'
          · exact deserializeLoop_missing_lookup_none rest m object source isN
              f.fdef.name hhead
          · rw [hnew] at hcon
            cases hcon
        · have hnewf : isN = false := Bool.not_eq_true isN ▸ hnew
          rw [deserializeLoop_cons_absent_old f rest m object source isN
            ht ho hnewf]
          refine List.Forall₂.cons ?_ ?_
          · refine ⟨fun hcon => absurd hcon (by rw [ht']; simp), fun _ =>
              ⟨fun raw' hraw' => ?_, fun _ hcon => ?_, fun _ _ => ⟨rfl, ?_⟩⟩⟩
            · rw [ho] at hraw'
              cases hraw'
            · rw [hnewf] at hcon
              cases hcon
            · simp only [Option.getD_some, List.lookup, beq_self_eq_true]
          · refine forall2_rel_transfer IH (fun g hg => ?_)
            simp only [Option.getD_some, List.lookup, htrans g hg]

/-- C3: for `$deserialize(object, {source, fields})`, the root mask is the
full requested mask over the declared fields, and each declared field
selected by it is (a) overwritten through `field.deserializeValue` with the
reported missing sub-fields recorded under the field's name when `object`
carries the key, (b) set to its computed default when the key is absent and
the instance is new, or (c) recorded itself (with its nested mask) in the
returned missing-fields tree when the key is absent and the instance is not
new; unselected fields are untouched. -/
theorem c3_deserialize_spec {n : Nat} (schema : Schema n) (inst : DInst n)
    (object : List (String × JSValue)) (source : Option String)
    (fieldsArg : FieldMaskV)
    (hnodup : (inst.fields.map (fun f => f.fdef.name)).Nodup) :
    ∃ m fields' missing,
      createFieldMaskM schema (fun _ => true) (inst.fields.map DField.fdef)
        fieldsArg = some m ∧
      deserializeM schema inst object source fieldsArg =
        some (fields', missing) ∧
      List.Forall₂ (deserFieldRel m object source inst.isNewI
          (fun name => (missing.getD []).lookup name)) inst.fields fields' := by
  have hmask : (createFieldMaskM schema (fun _ => true)
      (inst.fields.map DField.fdef) fieldsArg).isSome = true := by
    apply maskEntries_isSome
    intro t fm ht
    apply maskForField_isSome
    have hpos : 0 < n := t.pos
    have hcard : (insert t (∅ : Finset (Fin n))).card = 1 := by simp
    omega
  cases hm : createFieldMaskM schema (fun _ => true)
      (inst.fields.map DField.fdef) fieldsArg with
  | none => rw [hm] at hmask; exact absurd hmask (by simp)
  | some m =>
    refine ⟨m, (deserializeLoop inst.fields m object source inst.isNewI).1,
      (deserializeLoop inst.fields m object source inst.isNewI).2, rfl, ?_, ?_⟩
    · rw [deserializeM, hm]
    · exact deserializeLoop_spec m object source inst.isNewI inst.fields hnodup

/-- Witness for C3: one selected field carried by the object, one selected
field absent from it, on a non-new instance. -/
theorem c3_deserialize_spec_witness :
    (([DField.mk (FieldDef.mk "title" (0 : Fin 1) true) false .undefined
          (.str "") (fun raw _ _ => (raw, none)),
        DField.mk (FieldDef.mk "year" (0 : Fin 1) true) false .undefined
          (.number 0) (fun raw _ _ => (raw, none))].map
        (fun f => f.fdef.name)).Nodup) ∧
    ∃ m fields' missing,
      createFieldMaskM (fun _ => none) (fun _ => true)
        ([DField.mk (FieldDef.mk "title" (0 : Fin 1) true) false .undefined
            (.str "") (fun raw _ _ => (raw, none)),
          DField.mk (FieldDef.mk "year" (0 : Fin 1) true) false .undefined
            (.number 0) (fun raw _ _ => (raw, none))].map DField.fdef)
        (.bool true) = some m ∧
      deserializeM (fun _ => none)
        (DInst.mk
          [DField.mk (FieldDef.mk "title" (0 : Fin 1) true) false .undefined
            (.str "") (fun raw _ _ => (raw, none)),
           DField.mk (FieldDef.mk "year" (0 : Fin 1) true) false .undefined
            (.number 0) (fun raw _ _ => (raw, none))] false)
        [("title", .str "Inception")] none (.bool true) =
        some (fields', missing) ∧
      List.Forall₂ (deserFieldRel m [("title", .str "Inception")] none false
          (fun name => (missing.getD []).lookup name))
        [DField.mk (FieldDef.mk "title" (0 : Fin 1) true) false .undefined
          (.str "") (fun raw _ _ => (raw, none)),
         DField.mk (FieldDef.mk "year" (0 : Fin 1) true) false .undefined
          (.number 0) (fun raw _ _ => (raw, none))] fields' := by
  refine ⟨by simp, ?_⟩
  exact c3_deserialize_spec (fun _ => none)
    (DInst.mk
      [DField.mk (FieldDef.mk "title" (0 : Fin 1) true) false .undefined
        (.str "") (fun raw _ _ => (raw, none)),
       DField.mk (FieldDef.mk "year" (0 : Fin 1) true) false .undefined
        (.number 0) (fun raw _ _ => (raw, none))] false)
    [("title", .str "Inception")] none (.bool true) (by simp)

end Layr
